import Mathlib

/-!
Verification development for the groundwater contamination calculator
(`groundwater_contamination_model.py`, `groundwater_calculator.py`,
`streamlit_app.py`).

The analytic concentration formula of
`GroundwaterContaminationModel.calculate_concentration` is embedded over
the real numbers (`Real.exp`, `Real.sqrt`, `Real.pi` stand for the
floating-point `np.exp`, `np.sqrt`, `np.pi`).  NumPy's dual scalar/array
calling convention is embedded by the inductive type `NPVal`, and the
broadcasting actually exercised by the call sites (scalar/scalar,
array x with scalar t, scalar x with array t) is reproduced exactly,
including the `np.zeros_like(x)` early return for nonpositive times.

Parameter validation (`_validate_parameters`) and the array-scan
statistics (`find_concentration_range`, the breakthrough analysis of
`_print_breakthrough_analysis` / the dashboard) involve only exact
comparisons and index arithmetic, so they are embedded executably over
the rationals.
-/

namespace Groundwater

/-- The parameter record stored by `GroundwaterContaminationModel.__init__`:
`m` mass (g), `W` cross-section area (m^2), `n` effective porosity,
`u` groundwater velocity (m/d), `DL` longitudinal dispersion coefficient
(m^2/d), `lambda_decay` first-order decay constant (1/d). -/
structure GWModel where
  m : ℝ
  W : ℝ
  n : ℝ
  u : ℝ
  DL : ℝ
  lambda_decay : ℝ

/-- The domain constraints checked by `_validate_parameters`, as predicates
on the real-valued model: mass > 0, area > 0, porosity in (0,1],
velocity >= 0, dispersion > 0, decay >= 0. -/
def ValidR (P : GWModel) : Prop :=
  0 < P.m ∧ 0 < P.W ∧ 0 < P.n ∧ P.n ≤ 1 ∧ 0 ≤ P.u ∧ 0 < P.DL ∧ 0 ≤ P.lambda_decay

/-- A NumPy value as passed to `calculate_concentration`: either a scalar
or a one-dimensional array (ordered sequence). -/
inductive NPVal where
  | scalar (v : ℝ)
  | arr (vs : List ℝ)

/-- `np.any(np.asarray(t) <= 0)`: some entry of the value is ≤ 0. -/
def NPVal.anyNonpos : NPVal → Prop
  | .scalar v => v ≤ 0
  | .arr vs => ∃ v ∈ vs, v ≤ 0

/-- `np.zeros_like(x)`: a zero value of the same shape as `x`. -/
def NPVal.zerosLike : NPVal → NPVal
  | .scalar _ => .scalar 0
  | .arr vs => .arr (vs.map fun _ => 0)

/-- Scalar reading of a NumPy value (0 for an array, unused there). -/
def NPVal.toScalar : NPVal → ℝ
  | .scalar v => v
  | .arr _ => 0

/-- The scalar core of `calculate_concentration` for `t > 0`
(lines 96–111 of `groundwater_contamination_model.py`):
`coeff = m / (2*n*W*sqrt(pi*DL*t))`,
`exponent = -lambda_decay*t - (x - u*t)^2 / (4*DL*t)`,
`concentration = maximum(coeff * exp(clip(exponent, -700, 700)), 0)`,
with `np.clip(a, lo, hi) = min (max a lo) hi`. -/
noncomputable def conc_formula (P : GWModel) (x t : ℝ) : ℝ :=
  max ((P.m / (2 * P.n * P.W * Real.sqrt (Real.pi * P.DL * t))) *
    Real.exp (min (max (-P.lambda_decay * t - (x - P.u * t) ^ 2 / (4 * P.DL * t))
      (-700)) 700)) 0

/-- Elementwise/broadcast application of the scalar core over the
scalar-or-array arguments, following NumPy broadcasting as exercised by
the call sites (for two arrays NumPy requires equal lengths; `zipWith`
reproduces that case). -/
noncomputable def NPVal.broadcast (f : ℝ → ℝ → ℝ) : NPVal → NPVal → NPVal
  | .scalar a, .scalar b => .scalar (f a b)
  | .arr as, .scalar b => .arr (as.map fun a => f a b)
  | .scalar a, .arr bs => .arr (bs.map fun b => f a b)
  | .arr as, .arr bs => .arr (List.zipWith f as bs)

open Classical in
/-- `GroundwaterContaminationModel.calculate_concentration(x, t)`:
if any time entry is ≤ 0, return `np.zeros_like(x)`; otherwise evaluate
the vectorized formula elementwise over the arguments. -/
noncomputable def calculate_concentration (P : GWModel) (x t : NPVal) : NPVal :=
  if t.anyNonpos then x.zerosLike
  else NPVal.broadcast (conc_formula P) x t

/-! ### Basic unfolding lemmas -/

theorem calculate_concentration_scalar_pos (P : GWModel) (x t : ℝ) (ht : 0 < t) :
    calculate_concentration P (.scalar x) (.scalar t) = .scalar (conc_formula P x t) := by
  unfold calculate_concentration
  rw [if_neg]
  · rfl
  · exact fun h => absurd h (not_le.mpr ht)

theorem calculate_concentration_arr_scalar (P : GWModel) (xs : List ℝ) (t : ℝ)
    (ht : 0 < t) :
    calculate_concentration P (.arr xs) (.scalar t) =
      .arr (xs.map fun xi => conc_formula P xi t) := by
  unfold calculate_concentration
  rw [if_neg]
  · rfl
  · exact fun h => absurd h (not_le.mpr ht)

theorem calculate_concentration_scalar_arr (P : GWModel) (x : ℝ) (ts : List ℝ)
    (ht : ∀ ti ∈ ts, 0 < ti) :
    calculate_concentration P (.scalar x) (.arr ts) =
      .arr (ts.map fun ti => conc_formula P x ti) := by
  unfold calculate_concentration
  rw [if_neg]
  · rfl
  · rintro ⟨v, hv, hv0⟩
    exact absurd hv0 (not_le.mpr (ht v hv))

/-- The demonstration parameter set of `main` (mass 100 g, area 2 m^2,
porosity 0.3, velocity 0.1 m/d, dispersion 0.5 m^2/d, no decay). -/
noncomputable def demoParams : GWModel :=
  ⟨100, 2, 3 / 10, 1 / 10, 1 / 2, 0⟩

theorem demoParams_valid : ValidR demoParams := by
  refine ⟨?_, ?_, ?_, ?_, ?_, ?_, ?_⟩ <;> norm_num [demoParams]

/-- The coefficient `m / (2*n*W*sqrt(pi*DL*t))` is strictly positive for
valid parameters and positive time. -/
theorem coeff_pos (P : GWModel) (hP : ValidR P) (t : ℝ) (ht : 0 < t) :
    0 < P.m / (2 * P.n * P.W * Real.sqrt (Real.pi * P.DL * t)) := by
  obtain ⟨hm, hW, hn, -, -, hDL, -⟩ := hP
  have hpi := Real.pi_pos
  have hs : 0 < Real.sqrt (Real.pi * P.DL * t) := Real.sqrt_pos.mpr (by positivity)
  positivity

/-- When the exponent falls at or below the lower clamp bound, the clipped
exponent is exactly `-700`. -/
theorem conc_formula_clamped_low (P : GWModel) (x t : ℝ)
    (h : -P.lambda_decay * t - (x - P.u * t) ^ 2 / (4 * P.DL * t) ≤ -700) :
    conc_formula P x t =
      max ((P.m / (2 * P.n * P.W * Real.sqrt (Real.pi * P.DL * t))) *
        Real.exp (-700)) 0 := by
  unfold conc_formula
  rw [max_eq_right h, min_eq_left (by norm_num)]

/-- C1: for every model with valid parameters, every position `x` and every
time `t > 0`, `calculate_concentration` returns the reference expression:
`mass / (2*porosity*crossSectionArea*sqrt(pi*dispersionCoeff*t))` times
`exp` of the exponent `-decayRate*t - (x - velocity*t)^2/(4*dispersionCoeff*t)`
clamped to `[-700, 700]`, the product floored at 0 afterward. -/
theorem evaluate_matches_reference_formula (P : GWModel) (hP : ValidR P)
    (x t : ℝ) (ht : 0 < t) :
    calculate_concentration P (.scalar x) (.scalar t) =
      .scalar (max ((P.m / (2 * P.n * P.W * Real.sqrt (Real.pi * P.DL * t))) *
        Real.exp (min (max (-P.lambda_decay * t - (x - P.u * t) ^ 2 / (4 * P.DL * t))
          (-700)) 700)) 0) :=
  calculate_concentration_scalar_pos P x t ht

/-- Witness for C1 at the demonstration parameters, `x = 10`, `t = 100`. -/
theorem evaluate_matches_reference_formula_witness :
    calculate_concentration demoParams (.scalar 10) (.scalar 100) =
      .scalar (max ((demoParams.m /
          (2 * demoParams.n * demoParams.W *
            Real.sqrt (Real.pi * demoParams.DL * 100))) *
        Real.exp (min (max (-demoParams.lambda_decay * 100 -
          (10 - demoParams.u * 100) ^ 2 / (4 * demoParams.DL * 100)) (-700)) 700)) 0) :=
  evaluate_matches_reference_formula demoParams demoParams_valid 10 100 (by norm_num)

/-- C2: for every model, every position sample (scalar or array) and every
scalar time `t ≤ 0`, `calculate_concentration` returns exactly 0 at every
position (`np.zeros_like(x)`) and raises no error (it is a total function). -/
theorem evaluate_zero_for_nonpositive_time (P : GWModel) (x : NPVal) (t : ℝ)
    (ht : t ≤ 0) :
    calculate_concentration P x (.scalar t) = x.zerosLike ∧
      (∀ v : ℝ, calculate_concentration P (.scalar v) (.scalar t) = .scalar 0) ∧
      (∀ xs : List ℝ, calculate_concentration P (.arr xs) (.scalar t) =
        .arr (xs.map fun _ => 0)) := by
  refine ⟨?_, fun v => ?_, fun xs => ?_⟩ <;>
    · unfold calculate_concentration
      rw [if_pos (show (NPVal.scalar t).anyNonpos from ht)]
      try rfl

/-- Witness for C2 at the demonstration parameters, `x = 5`, `t = -1`. -/
theorem evaluate_zero_for_nonpositive_time_witness :
    calculate_concentration demoParams (.scalar 5) (.scalar (-1)) =
      (NPVal.scalar 5).zerosLike :=
  (evaluate_zero_for_nonpositive_time demoParams (.scalar 5) (-1) (by norm_num)).1

/-- C8: with zero decay, the concentration profile at time `t > 0` is
symmetric about the advective center `x = u*t`:
evaluating at `u*t + d` and `u*t - d` gives the same value for any offset. -/
theorem profile_symmetric_about_center (P : GWModel) (hP : ValidR P)
    (hdecay : P.lambda_decay = 0) (t d : ℝ) (ht : 0 < t) :
    calculate_concentration P (.scalar (P.u * t + d)) (.scalar t) =
      calculate_concentration P (.scalar (P.u * t - d)) (.scalar t) := by
  rw [calculate_concentration_scalar_pos P _ t ht,
    calculate_concentration_scalar_pos P _ t ht]
  have h2 : (P.u * t + d - P.u * t) ^ 2 = (P.u * t - d - P.u * t) ^ 2 := by ring
  unfold conc_formula
  rw [h2]

/-- Witness for C8 at the demonstration parameters, `t = 100`, `d = 7`. -/
theorem profile_symmetric_about_center_witness :
    calculate_concentration demoParams
        (.scalar (demoParams.u * 100 + 7)) (.scalar 100) =
      calculate_concentration demoParams
        (.scalar (demoParams.u * 100 - 7)) (.scalar 100) :=
  profile_symmetric_about_center demoParams demoParams_valid rfl 100 7 (by norm_num)

/-- C9: for valid parameters and `t > 0` the returned concentration is
strictly positive: the positive coefficient times `exp` of the clamped
exponent is positive, so the final floor at 0 (`np.maximum(. , 0)`) never
alters the value; an exact zero arises only from the `t <= 0` branch. -/
theorem evaluate_strictly_positive (P : GWModel) (hP : ValidR P)
    (x t : ℝ) (ht : 0 < t) :
    calculate_concentration P (.scalar x) (.scalar t) =
        .scalar (conc_formula P x t) ∧
      0 < conc_formula P x t ∧
      conc_formula P x t =
        (P.m / (2 * P.n * P.W * Real.sqrt (Real.pi * P.DL * t))) *
          Real.exp (min (max (-P.lambda_decay * t -
            (x - P.u * t) ^ 2 / (4 * P.DL * t)) (-700)) 700) := by
  have hc := coeff_pos P hP t ht
  have hpos : 0 < (P.m / (2 * P.n * P.W * Real.sqrt (Real.pi * P.DL * t))) *
      Real.exp (min (max (-P.lambda_decay * t -
        (x - P.u * t) ^ 2 / (4 * P.DL * t)) (-700)) 700) :=
    mul_pos hc (Real.exp_pos _)
  have hval : conc_formula P x t =
      (P.m / (2 * P.n * P.W * Real.sqrt (Real.pi * P.DL * t))) *
        Real.exp (min (max (-P.lambda_decay * t -
          (x - P.u * t) ^ 2 / (4 * P.DL * t)) (-700)) 700) := by
    unfold conc_formula
    exact max_eq_left hpos.le
  exact ⟨calculate_concentration_scalar_pos P x t ht, hval ▸ hpos, hval⟩

/-- Witness for C9 at the demonstration parameters, `x = 10`, `t = 100`. -/
theorem evaluate_strictly_positive_witness :
    0 < conc_formula demoParams 10 100 :=
  (evaluate_strictly_positive demoParams demoParams_valid 10 100 (by norm_num)).2.1

/-- Counterexample to C7 as stated: with the two valid parameter sets
differing only in the decay rate (800 vs 900), at `x = 0`, `t = 1` both
exponents (−800 and −900) are clipped to −700, so the two concentrations
are equal and the strictly-larger decay rate does not produce a strictly
smaller concentration. -/
theorem decay_monotonicity_counterexample :
    ValidR ⟨1, 1, 1, 0, 1, 800⟩ ∧ ValidR ⟨1, 1, 1, 0, 1, 900⟩ ∧
      (800 : ℝ) < 900 ∧ (0 : ℝ) < 1 ∧
      ¬ ((calculate_concentration ⟨1, 1, 1, 0, 1, 900⟩
            (.scalar 0) (.scalar 1)).toScalar <
          (calculate_concentration ⟨1, 1, 1, 0, 1, 800⟩
            (.scalar 0) (.scalar 1)).toScalar) := by
  refine ⟨⟨by norm_num, by norm_num, by norm_num, by norm_num, by norm_num,
      by norm_num, by norm_num⟩,
    ⟨by norm_num, by norm_num, by norm_num, by norm_num, by norm_num,
      by norm_num, by norm_num⟩, by norm_num, by norm_num, ?_⟩
  rw [calculate_concentration_scalar_pos _ _ _ one_pos,
    calculate_concentration_scalar_pos _ _ _ one_pos,
    conc_formula_clamped_low _ _ _ (by norm_num),
    conc_formula_clamped_low _ _ _ (by norm_num)]
  exact lt_irrefl _

/-- C7 amended: for fixed `(x, t)` with `t > 0` and two valid parameter
sets identical except in the decay rate, the model with the strictly larger
decay rate produces a strictly smaller concentration, provided the exponent
at the larger decay rate stays above the −700 clamp (i.e.
`decayRate₂·t + (x − u·t)²/(4·DL·t) < 700`); when both exponents fall below
−700, the clamp makes the two concentrations equal. -/
theorem decay_monotonicity_within_clamp (m W n u DL l1 l2 : ℝ)
    (hv1 : ValidR ⟨m, W, n, u, DL, l1⟩) (hv2 : ValidR ⟨m, W, n, u, DL, l2⟩)
    (hl : l1 < l2) (x t : ℝ) (ht : 0 < t)
    (hcl : l2 * t + (x - u * t) ^ 2 / (4 * DL * t) < 700) :
    (calculate_concentration ⟨m, W, n, u, DL, l2⟩
        (.scalar x) (.scalar t)).toScalar <
      (calculate_concentration ⟨m, W, n, u, DL, l1⟩
        (.scalar x) (.scalar t)).toScalar := by
  rw [calculate_concentration_scalar_pos _ _ _ ht,
    calculate_concentration_scalar_pos _ _ _ ht]
  show conc_formula ⟨m, W, n, u, DL, l2⟩ x t < conc_formula ⟨m, W, n, u, DL, l1⟩ x t
  obtain ⟨-, -, -, -, -, hDL, hl1⟩ := id hv1
  have hq : 0 ≤ (x - u * t) ^ 2 / (4 * DL * t) :=
    div_nonneg (sq_nonneg _) (by positivity)
  have he : -l2 * t - (x - u * t) ^ 2 / (4 * DL * t) <
      -l1 * t - (x - u * t) ^ 2 / (4 * DL * t) := by
    have := mul_lt_mul_of_pos_right hl ht
    linarith
  have h2lo : (-700 : ℝ) < -l2 * t - (x - u * t) ^ 2 / (4 * DL * t) := by linarith
  have h1hi : -l1 * t - (x - u * t) ^ 2 / (4 * DL * t) ≤ 700 := by
    have : 0 ≤ l1 * t := mul_nonneg hl1 ht.le
    linarith
  have h2hi : -l2 * t - (x - u * t) ^ 2 / (4 * DL * t) ≤ 700 := by linarith
  have hcoeff := coeff_pos ⟨m, W, n, u, DL, l1⟩ hv1 t ht
  unfold conc_formula
  rw [max_eq_left (le_of_lt h2lo), max_eq_left (by linarith : (-700:ℝ) ≤ _),
    min_eq_left h2hi, min_eq_left h1hi]
  have hp2 : 0 < m / (2 * n * W * Real.sqrt (Real.pi * DL * t)) *
      Real.exp (-l2 * t - (x - u * t) ^ 2 / (4 * DL * t)) :=
    mul_pos hcoeff (Real.exp_pos _)
  have hp1 : 0 < m / (2 * n * W * Real.sqrt (Real.pi * DL * t)) *
      Real.exp (-l1 * t - (x - u * t) ^ 2 / (4 * DL * t)) :=
    mul_pos hcoeff (Real.exp_pos _)
  rw [max_eq_left hp2.le, max_eq_left hp1.le]
  exact mul_lt_mul_of_pos_left (Real.exp_lt_exp.mpr he) hcoeff

/-- Witness for the amended C7: decay rates 0 vs 1 at `x = 0`, `t = 1`. -/
theorem decay_monotonicity_within_clamp_witness :
    (calculate_concentration ⟨1, 1, 1, 0, 1, 1⟩
        (.scalar 0) (.scalar 1)).toScalar <
      (calculate_concentration ⟨1, 1, 1, 0, 1, 0⟩
        (.scalar 0) (.scalar 1)).toScalar :=
  decay_monotonicity_within_clamp 1 1 1 0 1 0 1
    ⟨by norm_num, by norm_num, by norm_num, by norm_num, by norm_num,
      by norm_num, by norm_num⟩
    ⟨by norm_num, by norm_num, by norm_num, by norm_num, by norm_num,
      by norm_num, by norm_num⟩
    (by norm_num) 0 1 (by norm_num) (by norm_num)

/-- Counterexample to C4 as stated: at the demonstration parameters with
scalar position 10 and the time sequence `[-1, 1]`, the code returns
`np.zeros_like(x)` — a scalar 0 — because one time entry is nonpositive.
The result is not an array at all (not the shape of the array-valued time
argument), and the entry with `t = 1 > 0` does not receive the formula's
value. -/
theorem elementwise_evaluation_counterexample :
    calculate_concentration demoParams (.scalar 10) (.arr [-1, 1]) =
        .scalar 0 ∧
      calculate_concentration demoParams (.scalar 10) (.arr [-1, 1]) ≠
        .arr [0, conc_formula demoParams 10 1] := by
  have h : calculate_concentration demoParams (.scalar 10) (.arr [-1, 1]) =
      .scalar 0 := by
    unfold calculate_concentration
    rw [if_pos (show (NPVal.arr [-1, 1]).anyNonpos from
      ⟨-1, by simp, by norm_num⟩)]
    rfl
  refine ⟨h, ?_⟩
  rw [h]
  intro hcontra
  exact NPVal.noConfusion hcontra

/-- C4 amended: `calculate_concentration` applies the formula elementwise
with the result shaped like the array-valued argument, each element
depending only on its own sample, in these cases: (a) a position sequence
with a scalar time `t > 0`; (b) a scalar position with a time sequence all
of whose entries are positive; (c) a position sequence with a scalar time
`t ≤ 0` (every element 0).  However, if any entry of a time sequence is
`≤ 0`, the whole result is `np.zeros_like` of the position argument — for a
scalar position a scalar 0, not an array of the time argument's shape. -/
theorem elementwise_evaluation_amended (P : GWModel) (hP : ValidR P) :
    (∀ (xs : List ℝ) (t : ℝ), 0 < t →
        calculate_concentration P (.arr xs) (.scalar t) =
          .arr (xs.map fun xi => conc_formula P xi t)) ∧
      (∀ (x : ℝ) (ts : List ℝ), (∀ ti ∈ ts, 0 < ti) →
        calculate_concentration P (.scalar x) (.arr ts) =
          .arr (ts.map fun ti => conc_formula P x ti)) ∧
      (∀ (xs : List ℝ) (t : ℝ), t ≤ 0 →
        calculate_concentration P (.arr xs) (.scalar t) =
          .arr (xs.map fun _ => 0)) ∧
      (∀ (x : ℝ) (ts : List ℝ), (∃ ti ∈ ts, ti ≤ 0) →
        calculate_concentration P (.scalar x) (.arr ts) = .scalar 0) := by
  refine ⟨fun xs t ht => calculate_concentration_arr_scalar P xs t ht,
    fun x ts ht => calculate_concentration_scalar_arr P x ts ht,
    fun xs t ht => (evaluate_zero_for_nonpositive_time P (.arr xs) t ht).2.2 xs,
    fun x ts ht => ?_⟩
  unfold calculate_concentration
  rw [if_pos (show (NPVal.arr ts).anyNonpos from ht)]
  rfl

/-- Witness for the amended C4: demonstration parameters, positions `[0, 10]`
at `t = 100`. -/
theorem elementwise_evaluation_amended_witness :
    calculate_concentration demoParams (.arr [0, 10]) (.scalar 100) =
      .arr ([0, 10].map fun xi => conc_formula demoParams xi 100) :=
  (elementwise_evaluation_amended demoParams demoParams_valid).1 [0, 10] 100
    (by norm_num)

/-! ### Parameter validation (`__init__` / `_validate_parameters`)

The constructor argument checks involve only exact order comparisons, so
they are embedded executably over the rationals. -/

/-- The six constructor arguments of `GroundwaterContaminationModel`. -/
structure RawParams where
  m : ℚ
  W : ℚ
  n : ℚ
  u : ℚ
  DL : ℚ
  lambda_decay : ℚ
deriving DecidableEq

/-- The conjunction of the domain constraints of `_validate_parameters`. -/
def ValidQ (p : RawParams) : Prop :=
  0 < p.m ∧ 0 < p.W ∧ (0 < p.n ∧ p.n ≤ 1) ∧ 0 ≤ p.u ∧ 0 < p.DL ∧
    0 ≤ p.lambda_decay

instance (p : RawParams) : Decidable (ValidQ p) := by
  unfold ValidQ
  infer_instance

/-- `_validate_parameters` (lines 60–73): the sequence of checks, each
raising `ValueError` with a message naming the offending parameter. -/
def validate_parameters (p : RawParams) : Except String Unit :=
  if p.m ≤ 0 then .error "污染物质量必须大于0"
  else if p.W ≤ 0 then .error "横截面积必须大于0"
  else if ¬(0 < p.n ∧ p.n ≤ 1) then .error "有效孔隙度必须在0-1之间"
  else if p.u < 0 then .error "地下水流速不能为负"
  else if p.DL ≤ 0 then .error "纵向弥散系数必须大于0"
  else if p.lambda_decay < 0 then .error "反应系数不能为负"
  else .ok ()

/-- `__init__`: store the six arguments, then validate; on success the
model holds exactly the supplied parameters. -/
def mkModel (p : RawParams) : Except String RawParams :=
  match validate_parameters p with
  | .ok _ => .ok p
  | .error e => .error e

theorem validate_ok_of_valid (p : RawParams) (h : ValidQ p) :
    validate_parameters p = .ok () := by
  obtain ⟨h1, h2, h3, h4, h5, h6⟩ := h
  unfold validate_parameters
  rw [if_neg (not_le.mpr h1), if_neg (not_le.mpr h2), if_neg (not_not_intro h3),
    if_neg (not_lt.mpr h4), if_neg (not_le.mpr h5), if_neg (not_lt.mpr h6)]

theorem validate_error_of_invalid (p : RawParams) (h : ¬ ValidQ p) :
    ∃ msg, validate_parameters p = .error msg := by
  unfold validate_parameters
  by_cases h1 : p.m ≤ 0
  · rw [if_pos h1]; exact ⟨_, rfl⟩
  rw [if_neg h1]
  by_cases h2 : p.W ≤ 0
  · rw [if_pos h2]; exact ⟨_, rfl⟩
  rw [if_neg h2]
  by_cases h3 : 0 < p.n ∧ p.n ≤ 1
  · rw [if_neg (not_not_intro h3)]
    by_cases h4 : p.u < 0
    · rw [if_pos h4]; exact ⟨_, rfl⟩
    rw [if_neg h4]
    by_cases h5 : p.DL ≤ 0
    · rw [if_pos h5]; exact ⟨_, rfl⟩
    rw [if_neg h5]
    by_cases h6 : p.lambda_decay < 0
    · rw [if_pos h6]; exact ⟨_, rfl⟩
    exact absurd ⟨not_le.mp h1, not_le.mp h2, h3, not_lt.mp h4, not_le.mp h5,
      not_lt.mp h6⟩ h
  · rw [if_pos h3]; exact ⟨_, rfl⟩

theorem mkModel_error_iff (p : RawParams) (msg : String) :
    mkModel p = .error msg ↔ validate_parameters p = .error msg := by
  unfold mkModel
  cases h : validate_parameters p <;> simp

/-- C3: constructing a model fails with an error naming the offending
parameter exactly when some constraint is violated (mass ≤ 0, area ≤ 0,
porosity outside (0,1], velocity < 0, dispersion ≤ 0, decay < 0), the
message being that of the first violated check; when every constraint
holds, construction succeeds and stores exactly the supplied parameters
(all later operations are pure functions of this stored record). -/
theorem construction_validates_iff (p : RawParams) :
    (mkModel p = .ok p ↔ ValidQ p) ∧
      ((∃ msg, mkModel p = .error msg) ↔ ¬ ValidQ p) ∧
      (p.m ≤ 0 → mkModel p = .error "污染物质量必须大于0") ∧
      (0 < p.m → p.W ≤ 0 → mkModel p = .error "横截面积必须大于0") ∧
      (0 < p.m → 0 < p.W → ¬(0 < p.n ∧ p.n ≤ 1) →
        mkModel p = .error "有效孔隙度必须在0-1之间") ∧
      (0 < p.m → 0 < p.W → (0 < p.n ∧ p.n ≤ 1) → p.u < 0 →
        mkModel p = .error "地下水流速不能为负") ∧
      (0 < p.m → 0 < p.W → (0 < p.n ∧ p.n ≤ 1) → 0 ≤ p.u → p.DL ≤ 0 →
        mkModel p = .error "纵向弥散系数必须大于0") ∧
      (0 < p.m → 0 < p.W → (0 < p.n ∧ p.n ≤ 1) → 0 ≤ p.u → 0 < p.DL →
        p.lambda_decay < 0 → mkModel p = .error "反应系数不能为负") := by
  refine ⟨⟨fun hok => ?_, fun hv => ?_⟩, ⟨fun ⟨msg, herr⟩ hv => ?_, fun hv => ?_⟩,
    fun h1 => ?_, fun h1 h2 => ?_, fun h1 h2 h3 => ?_, fun h1 h2 h3 h4 => ?_,
    fun h1 h2 h3 h4 h5 => ?_, fun h1 h2 h3 h4 h5 h6 => ?_⟩
  · by_contra hv
    obtain ⟨msg, herr⟩ := validate_error_of_invalid p hv
    rw [show mkModel p = .error msg from (mkModel_error_iff p msg).mpr herr] at hok
    exact Except.noConfusion hok
  · unfold mkModel
    rw [validate_ok_of_valid p hv]
  · rw [mkModel_error_iff] at herr
    rw [validate_ok_of_valid p hv] at herr
    exact Except.noConfusion herr
  · obtain ⟨msg, herr⟩ := validate_error_of_invalid p hv
    exact ⟨msg, (mkModel_error_iff p msg).mpr herr⟩
  · rw [mkModel_error_iff]
    unfold validate_parameters
    rw [if_pos h1]
  · rw [mkModel_error_iff]
    unfold validate_parameters
    rw [if_neg (not_le.mpr h1), if_pos h2]
  · rw [mkModel_error_iff]
    unfold validate_parameters
    rw [if_neg (not_le.mpr h1), if_neg (not_le.mpr h2), if_pos h3]
  · rw [mkModel_error_iff]
    unfold validate_parameters
    rw [if_neg (not_le.mpr h1), if_neg (not_le.mpr h2),
      if_neg (not_not_intro h3), if_pos h4]
  · rw [mkModel_error_iff]
    unfold validate_parameters
    rw [if_neg (not_le.mpr h1), if_neg (not_le.mpr h2),
      if_neg (not_not_intro h3), if_neg (not_lt.mpr h4), if_pos h5]
  · rw [mkModel_error_iff]
    unfold validate_parameters
    rw [if_neg (not_le.mpr h1), if_neg (not_le.mpr h2),
      if_neg (not_not_intro h3), if_neg (not_lt.mpr h4),
      if_neg (not_le.mpr h5), if_pos h6]

/-- The demonstration constructor arguments, as rationals. -/
def demoRaw : RawParams :=
  ⟨100, 2, 3 / 10, 1 / 10, 1 / 2, 0⟩

/-- Witness for C3: the demonstration parameters validate and are stored
unchanged. -/
theorem construction_validates_iff_witness :
    mkModel demoRaw = .ok demoRaw :=
  (construction_validates_iff demoRaw).1.mpr
    ⟨by norm_num [demoRaw], by norm_num [demoRaw], ⟨by norm_num [demoRaw],
      by norm_num [demoRaw]⟩, by norm_num [demoRaw], by norm_num [demoRaw],
      by norm_num [demoRaw]⟩

/-! ### Array-scan statistics

`find_concentration_range` and the breakthrough analysis scan
concentration arrays with `np.where`, `np.max` and `np.argmax`; these are
embedded executably over rational-valued samples. -/

/-- `np.where(concentrations > limit)[0]`: the (increasing) list of indices
whose concentration strictly exceeds the limit. -/
def exceed_indices (cs : List ℚ) (limit : ℚ) : List ℕ :=
  (List.range cs.length).filter fun i => limit < cs.getD i 0

/-- `find_concentration_range(x, concentrations, limit)` (lines 115–130):
the positions at the first and last exceeding index, or `(None, None)`. -/
def find_concentration_range (x cs : List ℚ) (limit : ℚ) :
    Option ℚ × Option ℚ :=
  match (exceed_indices cs limit).head?, (exceed_indices cs limit).getLast? with
  | some i, some j => (some (x.getD i 0), some (x.getD j 0))
  | _, _ => (none, none)

/-- `np.max` over a nonempty sample (0 as junk value on the empty list,
where NumPy raises). -/
def np_max (cs : List ℚ) : ℚ :=
  match cs with
  | [] => 0
  | c :: rest => rest.foldl max c

/-- `np.argmax`: the first index attaining the maximum. -/
def np_argmax (cs : List ℚ) : ℕ :=
  cs.findIdx fun c => np_max cs ≤ c

theorem le_foldl_max (cs : List ℚ) (a : ℚ) : a ≤ cs.foldl max a := by
  induction cs generalizing a with
  | nil => exact le_refl a
  | cons b tl ih => exact le_trans (le_max_left a b) (ih (max a b))

theorem mem_le_foldl_max (cs : List ℚ) (a c : ℚ) (h : c ∈ cs) :
    c ≤ cs.foldl max a := by
  induction cs generalizing a with
  | nil => cases h
  | cons b tl ih =>
    rcases List.mem_cons.mp h with rfl | h2
    · exact le_trans (le_max_right a c) (le_foldl_max tl (max a c))
    · exact ih (max a b) h2

theorem foldl_max_mem (cs : List ℚ) (a : ℚ) : cs.foldl max a ∈ a :: cs := by
  induction cs generalizing a with
  | nil => exact List.mem_singleton.mpr rfl
  | cons b tl ih =>
    have hmm := ih (max a b)
    show List.foldl max (max a b) tl ∈ a :: b :: tl
    rcases List.mem_cons.mp hmm with heq | hmem
    · rw [heq]
      rcases max_choice a b with hab | hab
      · rw [hab]; exact List.mem_cons_self _ _
      · rw [hab]; exact List.mem_cons_of_mem _ (List.mem_cons_self _ _)
    · exact List.mem_cons_of_mem _ (List.mem_cons_of_mem _ hmem)

theorem le_np_max (cs : List ℚ) (c : ℚ) (h : c ∈ cs) : c ≤ np_max cs := by
  cases cs with
  | nil => cases h
  | cons b tl =>
    rcases List.mem_cons.mp h with rfl | h2
    · exact le_foldl_max tl c
    · exact mem_le_foldl_max tl b c h2

theorem np_max_mem (cs : List ℚ) (h : cs ≠ []) : np_max cs ∈ cs := by
  cases cs with
  | nil => exact absurd rfl h
  | cons b tl => exact foldl_max_mem tl b

theorem np_argmax_lt_length (cs : List ℚ) (h : cs ≠ []) :
    np_argmax cs < cs.length :=
  List.findIdx_lt_length_of_exists
    ⟨np_max cs, np_max_mem cs h, by simp⟩

theorem getD_np_argmax (cs : List ℚ) (h : cs ≠ []) :
    cs.getD (np_argmax cs) 0 = np_max cs := by
  have hlt : np_argmax cs < cs.length := np_argmax_lt_length cs h
  have hp : np_max cs ≤ cs[np_argmax cs] := by
    have h2 := @List.findIdx_getElem ℚ (fun c => decide (np_max cs ≤ c)) cs hlt
    exact of_decide_eq_true h2
  have hmem : cs[np_argmax cs] ∈ cs := List.getElem_mem hlt
  have : cs.getD (np_argmax cs) 0 = cs[np_argmax cs] := by
    simp [List.getD_eq_getElem?_getD, List.getElem?_eq_getElem hlt]
  rw [this]
  exact le_antisymm (le_np_max cs _ hmem) hp

theorem mem_exceed_indices (cs : List ℚ) (limit : ℚ) (i : ℕ) :
    i ∈ exceed_indices cs limit ↔ i < cs.length ∧ limit < cs.getD i 0 := by
  simp [exceed_indices, List.mem_filter, List.mem_range]

theorem exceed_indices_pairwise (cs : List ℚ) (limit : ℚ) :
    (exceed_indices cs limit).Pairwise (· < ·) :=
  (List.pairwise_lt_range _).filter _

theorem pairwise_head_le {l : List ℕ} (hl : l.Pairwise (· < ·)) {i : ℕ}
    (h : l.head? = some i) : ∀ j ∈ l, i ≤ j := by
  cases l with
  | nil => exact Option.noConfusion h
  | cons a tl =>
    simp only [List.head?_cons, Option.some.injEq] at h
    subst h
    intro j hj
    rcases List.mem_cons.mp hj with rfl | hj2
    · exact le_refl _
    · exact le_of_lt ((List.pairwise_cons.mp hl).1 j hj2)

theorem pairwise_getLast_ge {l : List ℕ} (hl : l.Pairwise (· < ·)) {i : ℕ}
    (h : l.getLast? = some i) : ∀ j ∈ l, j ≤ i := by
  induction l with
  | nil => exact Option.noConfusion h
  | cons a tl ih =>
    cases tl with
    | nil =>
      simp only [List.getLast?_singleton, Option.some.injEq] at h
      subst h
      intro j hj
      rw [List.mem_singleton.mp hj]
    | cons b tl2 =>
      rw [List.getLast?_cons_cons] at h
      have htl := (List.pairwise_cons.mp hl).2
      have hmem : i ∈ b :: tl2 := List.mem_of_getLast?_eq_some h
      intro j hj
      rcases List.mem_cons.mp hj with rfl | hj2
      · exact le_of_lt ((List.pairwise_cons.mp hl).1 i hmem)
      · exact ih htl h j hj2

theorem find_range_eq_none_iff (x cs : List ℚ) (limit : ℚ) :
    find_concentration_range x cs limit = (none, none) ↔
      exceed_indices cs limit = [] := by
  unfold find_concentration_range
  cases hL : exceed_indices cs limit with
  | nil => simp
  | cons a tl =>
    rcases hg : (a :: tl).getLast? with _ | j
    · exact absurd (List.getLast?_eq_none_iff.mp hg) (List.cons_ne_nil a tl)
    · simp

/-- C5: `find_concentration_range` on parallel equal-length sequences
returns `(None, None)` exactly when no index strictly exceeds the limit
(in particular whenever the limit is at least the global maximum of the
sample), and otherwise returns the positions at the first and the last
index whose concentration strictly exceeds the limit. -/
theorem find_range_spec (x cs : List ℚ) (limit : ℚ)
    (hlen : x.length = cs.length) :
    (find_concentration_range x cs limit = (none, none) ↔
        ∀ i < cs.length, cs.getD i 0 ≤ limit) ∧
      (∀ i j : ℕ,
        i < cs.length → limit < cs.getD i 0 →
        (∀ k < i, cs.getD k 0 ≤ limit) →
        j < cs.length → limit < cs.getD j 0 →
        (∀ k < cs.length, j < k → cs.getD k 0 ≤ limit) →
        find_concentration_range x cs limit =
          (some (x.getD i 0), some (x.getD j 0))) ∧
      ((∀ c ∈ cs, c ≤ limit) →
        find_concentration_range x cs limit = (none, none)) := by
  have hmain : find_concentration_range x cs limit = (none, none) ↔
      ∀ i < cs.length, cs.getD i 0 ≤ limit := by
    rw [find_range_eq_none_iff]
    simp [exceed_indices, List.filter_eq_nil_iff, List.mem_range, not_lt]
  refine ⟨hmain, fun i j hi hci hfirst hj hcj hlast => ?_, fun hall => ?_⟩
  · have hiL : i ∈ exceed_indices cs limit :=
      (mem_exceed_indices cs limit i).mpr ⟨hi, hci⟩
    have hjL : j ∈ exceed_indices cs limit :=
      (mem_exceed_indices cs limit j).mpr ⟨hj, hcj⟩
    have hne : exceed_indices cs limit ≠ [] := by
      intro hE
      rw [hE] at hiL
      exact List.not_mem_nil i hiL
    obtain ⟨i0, hi0⟩ : ∃ i0, (exceed_indices cs limit).head? = some i0 := by
      cases hE : exceed_indices cs limit with
      | nil => exact absurd hE hne
      | cons a tl => exact ⟨a, rfl⟩
    obtain ⟨j0, hj0⟩ : ∃ j0, (exceed_indices cs limit).getLast? = some j0 := by
      cases hg : (exceed_indices cs limit).getLast? with
      | none => exact absurd (List.getLast?_eq_none_iff.mp hg) hne
      | some a => exact ⟨a, rfl⟩
    have hi0mem : i0 ∈ exceed_indices cs limit := List.mem_of_mem_head? hi0
    have hj0mem : j0 ∈ exceed_indices cs limit :=
      List.mem_of_getLast?_eq_some hj0
    have hieq : i0 = i := by
      rcases lt_or_ge i0 i with hlt | hge
      · have hm := (mem_exceed_indices cs limit i0).mp hi0mem
        exact absurd (hfirst i0 hlt) (not_le.mpr hm.2)
      · exact le_antisymm
          (pairwise_head_le (exceed_indices_pairwise cs limit) hi0 i hiL) hge
    have hjeq : j0 = j := by
      rcases lt_or_ge j j0 with hlt | hge
      · have hm := (mem_exceed_indices cs limit j0).mp hj0mem
        exact absurd (hlast j0 hm.1 hlt) (not_le.mpr hm.2)
      · exact le_antisymm hge
          (pairwise_getLast_ge (exceed_indices_pairwise cs limit) hj0 j hjL)
    subst hieq hjeq
    unfold find_concentration_range
    rw [hi0, hj0]
  · refine hmain.mpr fun i hi => ?_
    have hget : cs.getD i 0 = cs[i] := by
      simp [List.getD_eq_getElem?_getD, List.getElem?_eq_getElem hi]
    rw [hget]
    exact hall _ (List.getElem_mem hi)

/-- Witness for C5: positions `[0, 5, 10]`, concentrations `[1, 3, 2]`,
limit 2 — only index 1 exceeds, so both endpoints are position 5. -/
theorem find_range_spec_witness :
    find_concentration_range [0, 5, 10] [1, 3, 2] 2 = (some 5, some 5) :=
  (find_range_spec [0, 5, 10] [1, 3, 2] 2 rfl).2.1 1 1
    (by decide) (by decide) (by decide) (by decide) (by decide) (by decide)

theorem exceed_head_eq_none_iff (cs : List ℚ) (limit : ℚ) :
    (exceed_indices cs limit).head? = none ↔
      ∀ i < cs.length, cs.getD i 0 ≤ limit := by
  rw [List.head?_eq_none_iff]
  simp [exceed_indices, List.filter_eq_nil_iff, List.mem_range, not_lt]

theorem exceed_head_eq_some (cs : List ℚ) (limit : ℚ) (i : ℕ)
    (hi : i < cs.length) (hci : limit < cs.getD i 0)
    (hfirst : ∀ k < i, cs.getD k 0 ≤ limit) :
    (exceed_indices cs limit).head? = some i := by
  have hiL : i ∈ exceed_indices cs limit :=
    (mem_exceed_indices cs limit i).mpr ⟨hi, hci⟩
  have hne : exceed_indices cs limit ≠ [] := by
    intro hE
    rw [hE] at hiL
    exact List.not_mem_nil i hiL
  obtain ⟨i0, hi0⟩ : ∃ i0, (exceed_indices cs limit).head? = some i0 := by
    cases hE : exceed_indices cs limit with
    | nil => exact absurd hE hne
    | cons a tl => exact ⟨a, rfl⟩
  have hi0mem : i0 ∈ exceed_indices cs limit := List.mem_of_mem_head? hi0
  have heq : i0 = i := by
    rcases lt_or_ge i0 i with hlt | hge
    · have hm := (mem_exceed_indices cs limit i0).mp hi0mem
      exact absurd (hfirst i0 hlt) (not_le.mpr hm.2)
    · exact le_antisymm
        (pairwise_head_le (exceed_indices_pairwise cs limit) hi0 i hiL) hge
  rw [← heq]
  exact hi0

/-- The reported breakthrough time: either a numeric time of the sampled
sequence, or the explicit not-reached state (the strings 未检出 / 未超标
in the CLI, `None` in the dashboard) — a state distinct by construction
from every numeric time. -/
inductive BTime where
  | reached (t : ℚ)
  | notReached
deriving DecidableEq

/-- First time entry whose concentration strictly exceeds the limit:
`t_range[np.where(concentrations > limit)[0][0]]` when an exceeding index
exists, the explicit not-reached state otherwise. -/
def first_exceed_time (ts cs : List ℚ) (limit : ℚ) : BTime :=
  match (exceed_indices cs limit).head? with
  | some i => .reached (ts.getD i 0)
  | none => .notReached

/-- The values printed by `_print_breakthrough_analysis` (and tabulated by
the dashboard) for one position: first detection, first exceedance, peak
concentration and its time. -/
structure BreakthroughStats where
  detection_time : BTime
  exceed_time : BTime
  max_conc : ℚ
  max_time : ℚ
deriving DecidableEq

/-- The breakthrough scan over a time sequence and the parallel
concentration sample (lines 315–336 of `groundwater_calculator.py`). -/
def breakthrough_statistics (ts cs : List ℚ)
    (standard_limit detection_limit : ℚ) : BreakthroughStats :=
  { detection_time := first_exceed_time ts cs detection_limit
    exceed_time := first_exceed_time ts cs standard_limit
    max_conc := np_max cs
    max_time := ts.getD (np_argmax cs) 0 }

/-- C6: the breakthrough scan returns the first time index strictly
exceeding the detection limit and the first strictly exceeding the
standard limit, plus the time and value of the peak concentration; a
crossing that never occurs is reported as the explicit not-reached state,
which is distinct from every numeric time (including 0) and is not a
sentinel numeric value. -/
theorem breakthrough_spec (ts cs : List ℚ)
    (standard_limit detection_limit : ℚ)
    (hlen : ts.length = cs.length) (hne : cs ≠ []) :
    (∀ lim, first_exceed_time ts cs lim = .notReached ↔
        ∀ i < cs.length, cs.getD i 0 ≤ lim) ∧
      (∀ lim i, i < cs.length → lim < cs.getD i 0 →
        (∀ k < i, cs.getD k 0 ≤ lim) →
        first_exceed_time ts cs lim = .reached (ts.getD i 0)) ∧
      (breakthrough_statistics ts cs standard_limit detection_limit).detection_time =
          first_exceed_time ts cs detection_limit ∧
      (breakthrough_statistics ts cs standard_limit detection_limit).exceed_time =
          first_exceed_time ts cs standard_limit ∧
      (breakthrough_statistics ts cs standard_limit detection_limit).max_conc ∈ cs ∧
      (∀ c ∈ cs,
        c ≤ (breakthrough_statistics ts cs standard_limit detection_limit).max_conc) ∧
      np_argmax cs < cs.length ∧
      (breakthrough_statistics ts cs standard_limit detection_limit).max_time =
          ts.getD (np_argmax cs) 0 ∧
      cs.getD (np_argmax cs) 0 =
          (breakthrough_statistics ts cs standard_limit detection_limit).max_conc ∧
      (∀ t : ℚ, BTime.reached t ≠ BTime.notReached) := by
  refine ⟨fun lim => ?_, fun lim i hi hci hfirst => ?_, rfl, rfl,
    np_max_mem cs hne, fun c hc => le_np_max cs c hc,
    np_argmax_lt_length cs hne, rfl, getD_np_argmax cs hne,
    fun t h => BTime.noConfusion h⟩
  · unfold first_exceed_time
    cases hh : (exceed_indices cs lim).head? with
    | none =>
      constructor
      · intro _
        exact (exceed_head_eq_none_iff cs lim).mp hh
      · intro _
        rfl
    | some a =>
      constructor
      · intro hcontra
        exact BTime.noConfusion hcontra
      · intro hall
        rw [(exceed_head_eq_none_iff cs lim).mpr hall] at hh
        exact Option.noConfusion hh
  · unfold first_exceed_time
    rw [exceed_head_eq_some cs lim i hi hci hfirst]

/-- Witness for C6: times `[1, 2, 3]`, concentrations `[0, 1, 2]`;
the first index exceeding the limit 1 is index 2, reported as time 3. -/
theorem breakthrough_spec_witness :
    first_exceed_time [1, 2, 3] [0, 1, 2] 1 = .reached (([1, 2, 3] : List ℚ).getD 2 0) :=
  (breakthrough_spec [1, 2, 3] [0, 1, 2] 1 0 rfl (by decide)).2.1 1 2
    (by decide) (by decide) (by decide)

/-- C10: whenever the detection limit is at most the standard limit and a
first-exceedance index exists in the scanned sample, a first-detection
index also exists and is no later, and the breakthrough scan reports both
as reached times of the sampled sequence. -/
theorem detection_no_later_than_exceedance (ts cs : List ℚ)
    (detection_limit standard_limit : ℚ)
    (h : detection_limit ≤ standard_limit) (i : ℕ)
    (hi : (exceed_indices cs standard_limit).head? = some i) :
    ∃ j, (exceed_indices cs detection_limit).head? = some j ∧ j ≤ i ∧
      (breakthrough_statistics ts cs standard_limit detection_limit).detection_time =
        .reached (ts.getD j 0) ∧
      (breakthrough_statistics ts cs standard_limit detection_limit).exceed_time =
        .reached (ts.getD i 0) := by
  have himem : i ∈ exceed_indices cs standard_limit := List.mem_of_mem_head? hi
  have hm := (mem_exceed_indices cs standard_limit i).mp himem
  have hidet : i ∈ exceed_indices cs detection_limit :=
    (mem_exceed_indices cs detection_limit i).mpr ⟨hm.1, lt_of_le_of_lt h hm.2⟩
  have hne : exceed_indices cs detection_limit ≠ [] := by
    intro hE
    rw [hE] at hidet
    exact List.not_mem_nil i hidet
  obtain ⟨j, hj⟩ : ∃ j, (exceed_indices cs detection_limit).head? = some j := by
    cases hE : exceed_indices cs detection_limit with
    | nil => exact absurd hE hne
    | cons a tl => exact ⟨a, rfl⟩
  refine ⟨j, hj,
    pairwise_head_le (exceed_indices_pairwise cs detection_limit) hj i hidet,
    ?_, ?_⟩
  · show first_exceed_time ts cs detection_limit = .reached (ts.getD j 0)
    unfold first_exceed_time
    rw [hj]
  · show first_exceed_time ts cs standard_limit = .reached (ts.getD i 0)
    unfold first_exceed_time
    rw [hi]

/-- Witness for C10: times `[5, 10, 15]`, concentrations `[0, 1, 2]`,
detection limit 0, standard limit 1. -/
theorem detection_no_later_than_exceedance_witness :
    ∃ j, (exceed_indices [0, 1, 2] 0).head? = some j ∧ j ≤ 2 ∧
      (breakthrough_statistics [5, 10, 15] [0, 1, 2] 1 0).detection_time =
        .reached (([5, 10, 15] : List ℚ).getD j 0) ∧
      (breakthrough_statistics [5, 10, 15] [0, 1, 2] 1 0).exceed_time =
        .reached (([5, 10, 15] : List ℚ).getD 2 0) :=
  detection_no_later_than_exceedance [5, 10, 15] [0, 1, 2] 0 1
    (by decide) 2 (by decide)

end Groundwater
